import Mathlib

/-!
Verification of the graph-construction core of `src/build.ts`
(viki-cast-graph).

The TypeScript source keeps two maps, `cast : Map<string, Cast>` and
`series : Map<string, Serie>`, then:

* `Graph.fetch` (after ingestion) prunes the cast map — it deletes every
  cast member that appears in at most one serie, counting against the
  (unmodified) serie rosters — and then filters every serie roster down
  to the surviving cast;
* `Graph.processCast` pushes one image node per surviving cast member;
* `Graph.processSeries` dispatches per serie on the roster length:
  `=== 2` pushes one labeled edge between the two cast members,
  `!== 0` pushes a hub node and one unlabeled edge per roster member.

We embed these as pure functions on lists: maps become association lists
(insertion order, unique keys), array `push` inside a `forEach` loop
becomes `++` of a mapped list, and the unchecked `as Cast` map lookups
become `Option`.
-/

namespace Viki

/-- Cast record, `type Cast = { id, name, url }` in the source. -/
structure Cast where
  id : String
  name : String
  url : String
  deriving DecidableEq, Repr

/-- Serie record, `type Serie = { id, name, cast: string[] }` in the source. -/
structure Serie where
  id : String
  name : String
  cast : List String
  deriving DecidableEq, Repr

/-- Node objects pushed onto `Graph.nodes`: `{ id, label, shape, image? }`. -/
structure Node where
  id : String
  label : String
  shape : String
  image : Option String := none
  deriving DecidableEq, Repr

/-- Edge objects pushed onto `Graph.edges`: `{ from, to, label?, length? }`.
The `length` field is declared in the source type but never assigned. -/
structure Edge where
  «from» : String
  «to» : String
  label : Option String := none
  length : Option Nat := none
  deriving DecidableEq, Repr

/-- Number of series whose roster contains `cid`:
`[...this.series.values()].filter(s => s.cast.includes(c.id)).length`. -/
def countSeries (series : List Serie) (cid : String) : Nat :=
  (series.filter (fun s => s.cast.contains cid)).length

/-- The cast-pruning loop of `Graph.fetch` (lines 93–97). The loop deletes
the entry currently visited whenever its serie count is `<= 1`; the
predicate only reads `this.series`, which the loop never modifies, so the
loop is exactly a filter of the cast map. -/
def pruneCast (cast : List Cast) (series : List Serie) : List Cast :=
  cast.filter (fun c => ! decide (countSeries series c.id ≤ 1))

/-- Membership test `this.cast.has(c)` on the cast map. -/
def castHas (cast : List Cast) (cid : String) : Bool :=
  cast.any (fun c => c.id == cid)

/-- Lookup `this.cast.get(cid)` on the cast map. -/
def castGet (cast : List Cast) (cid : String) : Option Cast :=
  cast.find? (fun c => c.id == cid)

/-- The roster-filtering loop of `Graph.fetch` (lines 99–101):
`s.cast = s.cast.filter(c => this.cast.has(c))` for every serie. -/
def pruneSeries (cast : List Cast) (series : List Serie) : List Serie :=
  series.map (fun s => { s with cast := s.cast.filter (fun cid => castHas cast cid) })

/-- The whole pruning phase at the end of `Graph.fetch`: prune the cast
map first, then filter every serie roster against the surviving cast. -/
def prune (cast : List Cast) (series : List Serie) : List Cast × List Serie :=
  let kept := pruneCast cast series
  (kept, pruneSeries kept series)

/-- `Graph.processCast` (lines 104–113): one `circularImage` node per
surviving cast member, in map insertion order. -/
def processCast (cast : List Cast) : List Node :=
  cast.map (fun c =>
    { id := c.id, label := c.name, shape := "circularImage", image := some c.url })

/-- `Graph.processSeriesMutipleEdges` (lines 125–138): one `text` hub node
carrying the serie name, plus one unlabeled edge from the hub to each
roster member. -/
def processSeriesMutipleEdges (serie : Serie) : List Node × List Edge :=
  ([{ id := serie.id, label := serie.name, shape := "text" }],
   serie.cast.map (fun cid => { «from» := serie.id, «to» := cid }))

/-- `Graph.processSeriesSingleEdge` (lines 140–146). The source forces the
two map lookups with `as Cast`; a missing roster index or a failed lookup
would throw at the `.id` access, which we model as `none`. -/
def processSeriesSingleEdge (cast : List Cast) (serie : Serie) : Option Edge :=
  match serie.cast.get? 0, serie.cast.get? 1 with
  | some a, some b =>
    match castGet cast a, castGet cast b with
    | some c0, some c1 => some { «from» := c0.id, «to» := c1.id, label := some serie.name }
    | _, _ => none
  | _, _ => none

/-- The per-serie dispatch inside `Graph.processSeries` (lines 115–123):
roster length `=== 2` goes to the single-edge branch, any other nonzero
length goes to the hub branch, length `0` emits nothing. -/
def processSerie (cast : List Cast) (serie : Serie) : Option (List Node × List Edge) :=
  if serie.cast.length = 2 then
    (processSeriesSingleEdge cast serie).map (fun e => ([], [e]))
  else if serie.cast.length ≠ 0 then
    some (processSeriesMutipleEdges serie)
  else
    some ([], [])

/-- `Graph.processSeries`: the `forEach` over the series map, concatenating
the per-serie emissions in insertion order; `none` if any serie throws. -/
def processSeries (cast : List Cast) : List Serie → Option (List Node × List Edge)
  | [] => some ([], [])
  | s :: rest =>
    match processSerie cast s, processSeries cast rest with
    | some (ns, es), some (ns2, es2) => some (ns ++ ns2, es ++ es2)
    | _, _ => none

/-- The classify step as run by the script: `graph.processCast()` then
`graph.processSeries()`, starting from empty node and edge arrays. The
node array holds the cast nodes first, then the hub nodes. -/
def classify (cast : List Cast) (series : List Serie) : Option (List Node × List Edge) :=
  match processSeries cast series with
  | some (ns, es) => some (processCast cast ++ ns, es)
  | none => none

/-- The mutable `Graph` object state: the `nodes` and `edges` arrays. -/
structure GraphState where
  nodes : List Node
  edges : List Edge
  deriving DecidableEq, Repr

/-- `graph.processCast()` as a state transformer: pushes onto `this.nodes`. -/
def runProcessCast (cast : List Cast) (g : GraphState) : GraphState :=
  { g with nodes := g.nodes ++ processCast cast }

/-- `graph.processSeries()` as a state transformer: pushes onto
`this.nodes` and `this.edges`; the loops never read either array. -/
def runProcessSeries (cast : List Cast) (series : List Serie) (g : GraphState) :
    Option GraphState :=
  (processSeries cast series).map (fun p =>
    { nodes := g.nodes ++ p.1, edges := g.edges ++ p.2 })

/-- Running the classify step on a `Graph` object in state `g`. -/
def runClassify (cast : List Cast) (series : List Serie) (g : GraphState) :
    Option GraphState :=
  runProcessSeries cast series (runProcessCast cast g)

/-! Concrete data used by witnesses and counterexamples. -/

/-- Participant appearing in two series. -/
def castX : Cast := { id := "x", name := "X", url := "ux" }

/-- Participant appearing in one serie only. -/
def castY : Cast := { id := "y", name := "Y", url := "uy" }

/-- Two-participant cast map for the Scenario A data. -/
def exCast : List Cast := [castX, castY]

/-- Scenario A series: `x` is in both, `y` only in the first. After
pruning, both rosters collapse to the single survivor `x`. -/
def exSeries : List Serie :=
  [{ id := "s1", name := "Show1", cast := ["x", "y"] },
   { id := "s2", name := "Show2", cast := ["x"] }]

/-- The first Scenario A serie after pruning: only `x` remains. -/
def exS1pruned : Serie := { id := "s1", name := "Show1", cast := ["x"] }

/-- Participant `a` of the two-survivor scenario. -/
def castA : Cast := { id := "a", name := "A", url := "ua" }

/-- Participant `b` of the two-survivor scenario. -/
def castB : Cast := { id := "b", name := "B", url := "ub" }

/-- Two participants appearing together in two series. -/
def exCastAB : List Cast := [castA, castB]

/-- Series for the two-survivor scenario: both series contain `a` and `b`. -/
def exSeriesAB : List Serie :=
  [{ id := "s1", name := "Show1", cast := ["a", "b"] },
   { id := "s2", name := "Show2", cast := ["a", "b"] }]

/-- A serie with three roster members, for the hub-branch witness. -/
def exS3 : Serie := { id := "s3", name := "Show3", cast := ["a", "b", "c"] }

/-- A serie with an empty roster. -/
def exS0 : Serie := { id := "s0", name := "Show0", cast := [] }

/-- Single participant appearing in a single serie: pruned away entirely. -/
def exCastSolo : List Cast := [{ id := "z", name := "Z", url := "uz" }]

/-- The single serie referencing only `z`. -/
def exSeriesSolo : List Serie := [{ id := "s9", name := "Show9", cast := ["z"] }]

/-- The first serie of the two-survivor scenario; pruning keeps its whole
roster, so it is also a member of the pruned serie list. -/
def exS1AB : Serie := { id := "s1", name := "Show1", cast := ["a", "b"] }

/-- The image node emitted for `x` in Scenario A. -/
def nodeX : Node := { id := "x", label := "X", shape := "circularImage", image := some "ux" }

/-- The hub node emitted for the one-survivor serie `s1` in Scenario A. -/
def hubS1 : Node := { id := "s1", label := "Show1", shape := "text" }

/-- The hub node emitted for the one-survivor serie `s2` in Scenario A. -/
def hubS2 : Node := { id := "s2", label := "Show2", shape := "text" }

/-- Full node list of the Scenario A graph. -/
def exANodes : List Node := [nodeX, hubS1, hubS2]

/-- Hub edge from `s1` to `x` in Scenario A. -/
def edgeS1X : Edge := { «from» := "s1", «to» := "x" }

/-- Hub edge from `s2` to `x` in Scenario A. -/
def edgeS2X : Edge := { «from» := "s2", «to» := "x" }

/-- Full edge list of the Scenario A graph. -/
def exAEdges : List Edge := [edgeS1X, edgeS2X]

/-- The image node emitted for `a` in the two-survivor scenario. -/
def nodeA : Node := { id := "a", label := "A", shape := "circularImage", image := some "ua" }

/-- The image node emitted for `b` in the two-survivor scenario. -/
def nodeB : Node := { id := "b", label := "B", shape := "circularImage", image := some "ub" }

/-- The labeled edge emitted for `Show1` in the two-survivor scenario. -/
def edgeShow1 : Edge := { «from» := "a", «to» := "b", label := some "Show1" }

/-- The labeled edge emitted for `Show2` in the two-survivor scenario. -/
def edgeShow2 : Edge := { «from» := "a", «to» := "b", label := some "Show2" }

/-- Graph state after one classify run on the pruned two-survivor data. -/
def exABrun1 : GraphState :=
  { nodes := [nodeA, nodeB], edges := [edgeShow1, edgeShow2] }

/-- Graph state after a second classify run on the same object. -/
def exABrun2 : GraphState :=
  { nodes := [nodeA, nodeB, nodeA, nodeB],
    edges := [edgeShow1, edgeShow2, edgeShow1, edgeShow2] }

/-! Helper lemmas shared by the claim theorems. -/

theorem mem_pruneCast {cast : List Cast} {series : List Serie} {c : Cast} :
    c ∈ pruneCast cast series ↔ c ∈ cast ∧ 1 < countSeries series c.id := by
  simp [pruneCast, List.mem_filter, Nat.not_le]

theorem castHas_of_mem {cast : List Cast} {c : Cast} (h : c ∈ cast) :
    castHas cast c.id = true := by
  simp only [castHas, List.any_eq_true]
  exact ⟨c, h, by simp⟩

theorem castGet_of_castHas {cast : List Cast} {cid : String}
    (h : castHas cast cid = true) : ∃ c, castGet cast cid = some c ∧ c.id = cid := by
  have hs : (castGet cast cid).isSome := by
    rw [castGet, List.find?_isSome]
    simpa [castHas, List.any_eq_true] using h
  obtain ⟨c, hc⟩ := Option.isSome_iff_exists.mp hs
  have hfind : List.find? (fun x => x.id == cid) cast = some c := by
    simpa [castGet] using hc
  have hp : (c.id == cid) = true := by simpa using List.find?_some hfind
  exact ⟨c, hc, eq_of_beq hp⟩

theorem castGet_mem {cast : List Cast} {cid : String} {c : Cast}
    (h : castGet cast cid = some c) : c ∈ cast :=
  List.mem_of_find?_eq_some (by simpa [castGet] using h)

theorem pruneSeries_roster {kept : List Cast} {series : List Serie} {s : Serie}
    (hs : s ∈ pruneSeries kept series) : ∀ cid ∈ s.cast, castHas kept cid = true := by
  simp only [pruneSeries, List.mem_map] at hs
  obtain ⟨t, _, rfl⟩ := hs
  intro cid hc
  exact (List.mem_filter.mp hc).2

/-- Claim C2: every participant that survives the prune is referenced by at
least two entries of the original, unfiltered serie rosters; the recurrence
count reads the rosters before any of them is edited. -/
theorem c2_prune_counts_original_rosters (cast : List Cast) (series : List Serie)
    (c : Cast) (h : c ∈ (prune cast series).1) : 2 ≤ countSeries series c.id := by
  have hlt := (mem_pruneCast.mp (by simpa [prune] using h)).2
  omega

/-- Witness for C2 on the Scenario A data: `x` survives and is referenced
by both series. -/
theorem c2_witness : 2 ≤ countSeries exSeries castX.id :=
  c2_prune_counts_original_rosters exCast exSeries castX (by decide)

/-- Claim C6: after prune, every participant id contained in any serie
roster is present in the surviving cast map. -/
theorem c6_roster_ids_in_cast (cast : List Cast) (series : List Serie) (s : Serie)
    (hs : s ∈ (prune cast series).2) (cid : String) (hc : cid ∈ s.cast) :
    castHas (prune cast series).1 cid = true :=
  pruneSeries_roster (by simpa [prune] using hs) cid hc

/-- Witness for C6 on the Scenario A data: the pruned first serie still
references `x`, and `x` is in the surviving cast map. -/
theorem c6_witness : castHas (prune exCast exSeries).1 "x" = true :=
  c6_roster_ids_in_cast exCast exSeries exS1pruned (by decide) "x" (by decide)

/-- Counterexample to claim C1: in the Scenario A data, serie `s1` ends the
prune with exactly one surviving participant, yet the dispatch emits a hub
node and an edge for it instead of nothing, because only a roster length of
zero is skipped in the source. -/
theorem c1_counterexample :
    exS1pruned ∈ (prune exCast exSeries).2 ∧ exS1pruned.cast.length = 1 ∧
      processSerie (prune exCast exSeries).1 exS1pruned =
        some ([{ id := "s1", label := "Show1", shape := "text" }],
              [{ «from» := "s1", «to» := "x" }]) ∧
      processSerie (prune exCast exSeries).1 exS1pruned ≠ some ([], []) := by
  exact ⟨by decide, by decide, by decide, by decide⟩

/-- Claim C1 (amended): an entry whose pruned roster has zero surviving
participants emits nothing; an entry with exactly one surviving
participant instead takes the hub branch. -/
theorem c1_zero_survivors_emit_nothing (cast : List Cast) (s : Serie)
    (h : s.cast.length = 0) : processSerie cast s = some ([], []) := by
  simp [processSerie, h]

/-- Witness for the amended C1: the empty-roster serie emits nothing. -/
theorem c1_witness : processSerie [] exS0 = some ([], []) :=
  c1_zero_survivors_emit_nothing [] exS0 (by decide)

/-- Claim C4: a serie with at least three surviving participants emits
exactly one hub node labeled with the serie name, of text shape and with no
image, plus one unlabeled edge from the hub to each surviving participant,
so the edge count equals the surviving-participant count. -/
theorem c4_hub_for_three_or_more (cast : List Cast) (s : Serie)
    (h : 3 ≤ s.cast.length) :
    processSerie cast s =
      some ([{ id := s.id, label := s.name, shape := "text", image := none }],
            s.cast.map (fun cid => { «from» := s.id, «to» := cid })) ∧
      (s.cast.map (fun cid => ({ «from» := s.id, «to» := cid } : Edge))).length
        = s.cast.length := by
  have h2 : ¬ s.cast.length = 2 := by omega
  have h0 : ¬ s.cast.length = 0 := by omega
  exact ⟨by simp [processSerie, h2, h0, processSeriesMutipleEdges], by simp⟩

/-- Witness for C4 on the three-member serie. -/
theorem c4_witness :
    processSerie [] exS3 =
      some ([{ id := exS3.id, label := exS3.name, shape := "text", image := none }],
            exS3.cast.map (fun cid => { «from» := exS3.id, «to» := cid })) ∧
      (exS3.cast.map (fun cid => ({ «from» := exS3.id, «to» := cid } : Edge))).length
        = exS3.cast.length :=
  c4_hub_for_three_or_more [] exS3 (by decide)

/-- Claim C3: a pruned serie with exactly two surviving participants emits
exactly one edge, directly between those two participants, labeled with the
serie name, and no hub node. -/
theorem c3_two_survivors_single_edge (cast : List Cast) (series : List Serie)
    (s : Serie) (a b : String) (hs : s ∈ (prune cast series).2)
    (hab : s.cast = [a, b]) :
    processSerie (prune cast series).1 s =
      some ([], [{ «from» := a, «to» := b, label := some s.name }]) := by
  have hros := pruneSeries_roster (by simpa [prune] using hs)
  obtain ⟨c0, hget0, hid0⟩ := castGet_of_castHas (hros a (by simp [hab]))
  obtain ⟨c1, hget1, hid1⟩ := castGet_of_castHas (hros b (by simp [hab]))
  simp only [prune] at hget0 hget1 ⊢
  simp [processSerie, hab, processSeriesSingleEdge, hget0, hget1, hid0, hid1]

/-- Witness for C3 on the two-survivor scenario. -/
theorem c3_witness :
    processSerie (prune exCastAB exSeriesAB).1 exS1AB =
      some ([], [{ «from» := "a", «to» := "b", label := some exS1AB.name }]) :=
  c3_two_survivors_single_edge exCastAB exSeriesAB exS1AB "a" "b" (by decide) (by decide)

/-- Claim C10: on a pruned serie with a length-two roster, both unchecked
map lookups in the single-edge branch succeed, so the forced `as Cast`
casts never see `undefined` and the function is total there. -/
theorem c10_single_edge_lookups_safe (cast : List Cast) (series : List Serie)
    (s : Serie) (hs : s ∈ (prune cast series).2) (h2 : s.cast.length = 2) :
    (processSeriesSingleEdge (prune cast series).1 s).isSome = true := by
  obtain ⟨a, b, hab⟩ : ∃ a b, s.cast = [a, b] := by
    cases hc : s.cast with
    | nil => rw [hc] at h2; simp at h2
    | cons a t =>
      cases t with
      | nil => rw [hc] at h2; simp at h2
      | cons b u =>
        cases u with
        | nil => exact ⟨a, b, rfl⟩
        | cons c v => rw [hc] at h2; simp at h2
  have hros := pruneSeries_roster (by simpa [prune] using hs)
  obtain ⟨c0, hget0, _⟩ := castGet_of_castHas (hros a (by simp [hab]))
  obtain ⟨c1, hget1, _⟩ := castGet_of_castHas (hros b (by simp [hab]))
  simp only [prune] at hget0 hget1 ⊢
  simp [processSeriesSingleEdge, hab, hget0, hget1]

/-- Witness for C10 on the two-survivor scenario. -/
theorem c10_witness :
    (processSeriesSingleEdge (prune exCastAB exSeriesAB).1 exS1AB).isSome = true :=
  c10_single_edge_lookups_safe exCastAB exSeriesAB exS1AB (by decide) (by decide)

theorem castHas_node {kept : List Cast} {cid : String} (h : castHas kept cid = true) :
    ∃ n ∈ processCast kept, n.id = cid := by
  simp only [castHas, List.any_eq_true] at h
  obtain ⟨c, hc, hid⟩ := h
  exact ⟨_, List.mem_map_of_mem _ hc, by simpa using hid⟩

theorem processSeriesSingleEdge_some {kept : List Cast} {s : Serie} {e : Edge}
    (h : processSeriesSingleEdge kept s = some e) :
    castHas kept e.«from» = true ∧ castHas kept e.«to» = true := by
  rw [processSeriesSingleEdge] at h
  split at h
  · split at h
    · rename_i c0 c1 hc0 hc1
      simp only [Option.some.injEq] at h
      subst h
      exact ⟨castHas_of_mem (castGet_mem hc0), castHas_of_mem (castGet_mem hc1)⟩
    · simp at h
  · simp at h

theorem processSerie_edges_closed {kept : List Cast} {s : Serie}
    (hros : ∀ cid ∈ s.cast, castHas kept cid = true)
    {ns : List Node} {es : List Edge}
    (h : processSerie kept s = some (ns, es)) {e : Edge} (he : e ∈ es) :
    ((∃ n ∈ ns, n.id = e.«from») ∨ castHas kept e.«from» = true) ∧
    ((∃ n ∈ ns, n.id = e.«to») ∨ castHas kept e.«to» = true) := by
  rw [processSerie] at h
  by_cases h2 : s.cast.length = 2
  · rw [if_pos h2] at h
    rcases hse : processSeriesSingleEdge kept s with _ | e0
    · rw [hse] at h; exact absurd h (by simp)
    · rw [hse] at h
      simp only [Option.map_some', Option.some.injEq, Prod.mk.injEq] at h
      obtain ⟨hns, hes⟩ := h
      subst hns; subst hes
      have he0 : e = e0 := by simpa using he
      subst he0
      have hc := processSeriesSingleEdge_some hse
      exact ⟨Or.inr hc.1, Or.inr hc.2⟩
  · rw [if_neg h2] at h
    by_cases h0 : s.cast.length ≠ 0
    · rw [if_pos h0] at h
      simp only [processSeriesMutipleEdges, Option.some.injEq, Prod.mk.injEq] at h
      obtain ⟨hns, hes⟩ := h
      subst hns; subst hes
      simp only [List.mem_map] at he
      obtain ⟨cid, hcid, rfl⟩ := he
      constructor
      · exact Or.inl ⟨{ id := s.id, label := s.name, shape := "text" }, by simp, rfl⟩
      · exact Or.inr (hros cid hcid)
    · rw [if_neg h0] at h
      simp only [Option.some.injEq, Prod.mk.injEq] at h
      obtain ⟨hns, hes⟩ := h
      subst hes
      simp at he

theorem processSeries_edges_closed {kept : List Cast} {ss : List Serie}
    (hros : ∀ s ∈ ss, ∀ cid ∈ s.cast, castHas kept cid = true)
    {ns : List Node} {es : List Edge}
    (h : processSeries kept ss = some (ns, es)) {e : Edge} (he : e ∈ es) :
    ((∃ n ∈ ns, n.id = e.«from») ∨ castHas kept e.«from» = true) ∧
    ((∃ n ∈ ns, n.id = e.«to») ∨ castHas kept e.«to» = true) := by
  induction ss generalizing ns es with
  | nil =>
    simp only [processSeries, Option.some.injEq, Prod.mk.injEq] at h
    obtain ⟨hns, hes⟩ := h
    subst hes; simp at he
  | cons s rest ih =>
    rw [processSeries] at h
    rcases h1 : processSerie kept s with _ | p1
    · rw [h1] at h; exact absurd h (by simp)
    rcases hrest : processSeries kept rest with _ | p2
    · rw [h1, hrest] at h
      obtain ⟨n1, e1⟩ := p1
      exact absurd h (by simp)
    obtain ⟨n1, e1⟩ := p1
    obtain ⟨n2, e2⟩ := p2
    rw [h1, hrest] at h
    simp only [Option.some.injEq, Prod.mk.injEq] at h
    obtain ⟨hns, hes⟩ := h
    subst hns; subst hes
    rcases List.mem_append.mp he with he1 | he2
    · have hc := processSerie_edges_closed (hros s (by simp)) h1 he1
      refine ⟨hc.1.imp ?_ id, hc.2.imp ?_ id⟩
      · exact fun ⟨n, hn, hid⟩ => ⟨n, List.mem_append_left _ hn, hid⟩
      · exact fun ⟨n, hn, hid⟩ => ⟨n, List.mem_append_left _ hn, hid⟩
    · have hc := ih (fun t ht => hros t (by simp [ht])) hrest he2
      refine ⟨hc.1.imp ?_ id, hc.2.imp ?_ id⟩
      · exact fun ⟨n, hn, hid⟩ => ⟨n, List.mem_append_right _ hn, hid⟩
      · exact fun ⟨n, hn, hid⟩ => ⟨n, List.mem_append_right _ hn, hid⟩

/-- Claim C5: in the graph produced after `processCast` and `processSeries`
have both run on the pruned input, every edge's from-id and to-id is the id
of some node present in the node list. -/
theorem c5_edges_reference_nodes (cast : List Cast) (series : List Serie)
    (ns : List Node) (es : List Edge)
    (h : classify (prune cast series).1 (prune cast series).2 = some (ns, es))
    (e : Edge) (he : e ∈ es) :
    (∃ n ∈ ns, n.id = e.«from») ∧ (∃ n ∈ ns, n.id = e.«to») := by
  rw [classify] at h
  rcases hps : processSeries (prune cast series).1 (prune cast series).2 with _ | p
  · rw [hps] at h; exact absurd h (by simp)
  obtain ⟨hubNs, es2⟩ := p
  rw [hps] at h
  simp only [Option.some.injEq, Prod.mk.injEq] at h
  obtain ⟨hns, hes⟩ := h
  subst hns; subst hes
  have hros : ∀ s ∈ (prune cast series).2, ∀ cid ∈ s.cast,
      castHas (prune cast series).1 cid = true :=
    fun s hs => pruneSeries_roster (by simpa [prune] using hs)
  have hc := processSeries_edges_closed hros hps he
  constructor
  · rcases hc.1 with ⟨n, hn, hid⟩ | hhas
    · exact ⟨n, List.mem_append_right _ hn, hid⟩
    · obtain ⟨n, hn, hid⟩ := castHas_node hhas
      exact ⟨n, List.mem_append_left _ hn, hid⟩
  · rcases hc.2 with ⟨n, hn, hid⟩ | hhas
    · exact ⟨n, List.mem_append_right _ hn, hid⟩
    · obtain ⟨n, hn, hid⟩ := castHas_node hhas
      exact ⟨n, List.mem_append_left _ hn, hid⟩

/-- Witness for C5 on the Scenario A graph: the hub edge from `s1` has both
endpoints among the emitted nodes. -/
theorem c5_witness :
    (∃ n ∈ exANodes, n.id = edgeS1X.«from») ∧ (∃ n ∈ exANodes, n.id = edgeS1X.«to») :=
  c5_edges_reference_nodes exCast exSeries exANodes exAEdges (by decide) edgeS1X (by decide)

/-- Counterexample to claim C7: in the Scenario A data no pruned serie has
two or more surviving participants (both rosters hold exactly one), yet the
resulting graph has two edges, and three nodes against a total participant
count of two, because one-survivor series take the hub branch. -/
theorem c7_counterexample :
    (prune exCast exSeries).2 =
      [{ id := "s1", name := "Show1", cast := ["x"] },
       { id := "s2", name := "Show2", cast := ["x"] }] ∧
    classify (prune exCast exSeries).1 (prune exCast exSeries).2 =
      some (exANodes, exAEdges) ∧
    exAEdges.length = 2 ∧ exANodes.length = 3 ∧ exCast.length = 2 := by
  exact ⟨by decide, by decide, by decide, by decide, by decide⟩

theorem processSeries_all_empty {kept : List Cast} {ss : List Serie}
    (h : ∀ s ∈ ss, s.cast.length = 0) : processSeries kept ss = some ([], []) := by
  induction ss with
  | nil => rfl
  | cons s rest ih =>
    have hrest := ih (fun t ht => h t (List.mem_cons_of_mem _ ht))
    have hs0 := h s (List.mem_cons_self _ _)
    rw [processSeries, hrest]
    simp [processSerie, hs0]

/-- Claim C7 (amended): on a pruned input in which zero entries have one or
more surviving participants, classify succeeds and yields an empty edge
set and a node set of size at most the total participant count. -/
theorem c7_empty_rosters_graph_bounded (cast : List Cast) (series : List Serie)
    (h : ∀ s ∈ (prune cast series).2, s.cast.length = 0) :
    classify (prune cast series).1 (prune cast series).2 =
      some (processCast (prune cast series).1, []) ∧
    (processCast (prune cast series).1).length ≤ cast.length := by
  constructor
  · rw [classify, processSeries_all_empty h]
    simp
  · have hlen : (processCast (prune cast series).1).length =
        (pruneCast cast series).length := by
      simp [processCast, prune]
    rw [hlen, pruneCast]
    exact List.length_filter_le _ _

/-- Witness for the amended C7: the solo participant is pruned, the serie
roster empties, and the graph is empty. -/
theorem c7_witness :
    classify (prune exCastSolo exSeriesSolo).1 (prune exCastSolo exSeriesSolo).2 =
      some (processCast (prune exCastSolo exSeriesSolo).1, []) ∧
    (processCast (prune exCastSolo exSeriesSolo).1).length ≤ exCastSolo.length :=
  c7_empty_rosters_graph_bounded exCastSolo exSeriesSolo (by decide)

theorem processCast_cons (d : Cast) (t : List Cast) :
    processCast (d :: t) =
      { id := d.id, label := d.name, shape := "circularImage", image := some d.url }
        :: processCast t := rfl

theorem processCast_filter_none {l : List Cast} {cid : String}
    (h : ∀ x ∈ l, x.id ≠ cid) :
    (processCast l).filter (fun n => n.id == cid) = [] := by
  induction l with
  | nil => rfl
  | cons d t ih =>
    have hd : (d.id == cid) = false := by simpa using h d (List.mem_cons_self _ _)
    simp only [processCast_cons, List.filter_cons, hd, Bool.false_eq_true, if_false]
    exact ih (fun x hx => h x (List.mem_cons_of_mem _ hx))

theorem processCast_filter_unique {l : List Cast} {c : Cast}
    (hp : l.Pairwise (fun a b => a.id ≠ b.id)) (hc : c ∈ l) :
    (processCast l).filter (fun n => n.id == c.id) =
      [{ id := c.id, label := c.name, shape := "circularImage", image := some c.url }] := by
  induction l with
  | nil => simp at hc
  | cons d t ih =>
    obtain ⟨hhead, htail⟩ := List.pairwise_cons.mp hp
    rcases List.mem_cons.mp hc with rfl | hct
    · simp only [processCast_cons, List.filter_cons, beq_self_eq_true, if_true]
      rw [processCast_filter_none (fun x hx => fun hxe => hhead x hx hxe.symm)]
    · have hd : (d.id == c.id) = false := by simpa using hhead c hct
      simp only [processCast_cons, List.filter_cons, hd, Bool.false_eq_true, if_false]
      exact ih htail hct

/-- Claim C8: for each participant surviving the prune, the classify step
emits exactly one node carrying the participant's id, labeled with the
participant's name, of circular-image shape, and holding the participant's
image reference; the hypothesis is the cast-map key uniqueness that the
source `Map` guarantees. -/
theorem c8_one_image_node_per_survivor (cast : List Cast) (series : List Serie)
    (hids : cast.Pairwise (fun a b => a.id ≠ b.id))
    (c : Cast) (hc : c ∈ (prune cast series).1) :
    (processCast (prune cast series).1).filter (fun n => n.id == c.id) =
      [{ id := c.id, label := c.name, shape := "circularImage", image := some c.url }] := by
  have hp : (prune cast series).1.Pairwise (fun a b => a.id ≠ b.id) := by
    simp only [prune, pruneCast]
    exact hids.filter _
  exact processCast_filter_unique hp (by simpa [prune] using hc)

/-- Witness for C8: participant `a` of the two-survivor scenario gets
exactly its one image node. -/
theorem c8_witness :
    (processCast (prune exCastAB exSeriesAB).1).filter (fun n => n.id == castA.id) =
      [{ id := castA.id, label := castA.name, shape := "circularImage",
         image := some castA.url }] :=
  c8_one_image_node_per_survivor exCastAB exSeriesAB (by decide) castA (by decide)

/-- Claim C9: the classify step is deterministic in its input — running it
a second time on the same pruned cast and serie data appends exactly the
same node and edge lists as the first run, so both runs produce identical
output; the emission never reads the accumulated arrays. -/
theorem c9_classify_deterministic (cast : List Cast) (series : List Serie)
    (g1 g2 : GraphState)
    (h1 : runClassify cast series { nodes := [], edges := [] } = some g1)
    (h2 : runClassify cast series g1 = some g2) :
    g2.nodes = g1.nodes ++ g1.nodes ∧ g2.edges = g1.edges ++ g1.edges := by
  rcases hps : processSeries cast series with _ | p
  · rw [runClassify, runProcessSeries, hps] at h1; exact absurd h1 (by simp)
  obtain ⟨ns, es⟩ := p
  rw [runClassify, runProcessSeries, hps] at h1 h2
  simp only [Option.map_some', Option.some.injEq] at h1 h2
  subst h1; subst h2
  simp [runProcessCast]

/-- Witness for C9 on the pruned two-survivor data: the second run appends
a copy of the first run's nodes and edges. -/
theorem c9_witness :
    exABrun2.nodes = exABrun1.nodes ++ exABrun1.nodes ∧
    exABrun2.edges = exABrun1.edges ++ exABrun1.edges :=
  c9_classify_deterministic (prune exCastAB exSeriesAB).1 (prune exCastAB exSeriesAB).2
    exABrun1 exABrun2 (by decide) (by decide)

end Viki
